import Mathlib

/-!
# Domesday: a shallow embedding of the CSV-to-SQLite import utility

The repository ships a README, a notebook (`domesday.ipynb`), and a small
`domesday` module exposing `Database` with `load_csv`, `to_dataframe`, a
`landholders` table and an `fts_landholders` full-text index.  The module
itself is not part of the source snapshot; its behaviour is modelled here
from the specification, while the notebook code (name generation, the
`relative_D` column) is translated directly from the notebook cells.

Monetary values are exact rationals (the source uses `Decimal`), strings are
Lean `String`s, and the database file is a pair of in-memory tables.
-/

/-- Characters of a string with surrounding whitespace removed
(the loader trims whitespace from every field). -/
def trimChars (cs : List Char) : List Char :=
  ((cs.dropWhile Char.isWhitespace).reverse.dropWhile Char.isWhitespace).reverse

/-- Modelled from the spec: stripping "currency punctuation" (the pound
symbol and thousands separators) from a monetary source text. -/
def stripCurrency (cs : List Char) : List Char :=
  cs.filter (fun c => c != '£' && c != ',')

/-- Digits to their numeric value, most significant first. -/
def digitsToNat (l : List Char) : Nat :=
  l.foldl (fun acc c => 10 * acc + (c.toNat - 48)) 0

/-- Split a character list at every occurrence of the decimal point. -/
def splitDot : List Char → List Char → List (List Char)
  | [], cur => [cur.reverse]
  | c :: cs, cur =>
    if c = '.' then cur.reverse :: splitDot cs [] else splitDot cs (c :: cur)

/-- Modelled from the spec: parse a plain decimal numeral
(`digits` or `digits.digits`) to an exact rational value. -/
def parseDecimal (cs : List Char) : Option ℚ :=
  match splitDot cs [] with
  | [w] =>
    if w.isEmpty then none
    else if w.all Char.isDigit then some (digitsToNat w : ℚ) else none
  | [w, f] =>
    if w.isEmpty || f.isEmpty then none
    else if w.all Char.isDigit && f.all Char.isDigit then
      some ((digitsToNat w : ℚ) + (digitsToNat f : ℚ) / (10 : ℚ) ^ f.length)
    else none
  | _ => none

/-- Modelled from the spec: coerce a monetary column from currency-formatted
text to an exact decimal; a missing (blank) value defaults to zero, never
null. -/
def parseMoney (s : String) : Option ℚ :=
  let t := trimChars s.data
  if t.isEmpty then some 0 else parseDecimal (stripCurrency t)

/-- Modelled from the spec: one typed historical landholder entry
(the row shape of the `landholders` table, in declared field order). -/
structure Record where
  name : String
  gender : String
  external_id : String
  description : String
  value_a : ℚ
  value_b : ℚ
  value_c : ℚ
  value_d : ℚ
  value_e : ℚ
  editor : Option String
  status : String
deriving DecidableEq, Repr

/-- One raw source row of the delimited input file, all fields as text
(a blank monetary field stands for an absent value). -/
structure RawRow where
  name : String
  gender : String
  external_id : String
  description : String
  value_a : String
  value_b : String
  value_c : String
  value_d : String
  value_e : String
  editor : String
  status : String
deriving DecidableEq, Repr

/-- Modelled from the spec: the loader's error kinds for a rejected row. -/
inductive LoadError where
  | MissingIdentifier
  | MalformedRow
deriving DecidableEq, Repr

/-- Modelled from the spec: coerce one raw row into a typed `Record`.
Whitespace is trimmed, monetary columns parse from currency text with a
blank defaulting to zero, the identifier must be non-empty, and a blank
`editor` becomes null. -/
def parseRow (r : RawRow) : Except LoadError Record :=
  if (trimChars r.external_id.data).isEmpty then .error .MissingIdentifier
  else
    match parseMoney r.value_a, parseMoney r.value_b, parseMoney r.value_c,
          parseMoney r.value_d, parseMoney r.value_e with
    | some a, some b, some c, some d, some e =>
      .ok { name := String.mk (trimChars r.name.data)
            gender := String.mk (trimChars r.gender.data)
            external_id := String.mk (trimChars r.external_id.data)
            description := String.mk (trimChars r.description.data)
            value_a := a, value_b := b, value_c := c, value_d := d, value_e := e
            editor :=
              if (trimChars r.editor.data).isEmpty then none
              else some (String.mk (trimChars r.editor.data))
            status := String.mk (trimChars r.status.data) }
    | _, _, _, _, _ => .error .MalformedRow

/-- Modelled from the spec: one entry of the `fts_landholders` search index,
the `(name, external_id, description)` projection of a record. -/
structure FtsEntry where
  name : String
  external_id : String
  description : String
deriving DecidableEq, Repr

/-- The search-index projection of a record. -/
def recordEntry (r : Record) : FtsEntry :=
  { name := r.name, external_id := r.external_id, description := r.description }

/-- Modelled from the spec: the database file, holding the primary
`landholders` table and the `fts_landholders` search index. -/
structure Database where
  landholders : List Record
  fts_landholders : List FtsEntry
deriving DecidableEq, Repr

/-- Modelled from the spec: upsert into the primary table — a row carrying
an `external_id` already present replaces the stored row in place, any other
row is appended. -/
def upsertRec : List Record → Record → List Record
  | [], r => [r]
  | x :: xs, r =>
    if x.external_id = r.external_id then r :: xs else x :: upsertRec xs r

/-- Modelled from the spec: the matching upsert into the search index,
keyed on the same identifier. -/
def upsertEntry : List FtsEntry → FtsEntry → List FtsEntry
  | [], e => [e]
  | x :: xs, e =>
    if x.external_id = e.external_id then e :: xs else x :: upsertEntry xs e

/-- Modelled from the spec: upsert one record into both the primary table
and the search index; the two writes happen together in one logical unit. -/
def Database.upsert (db : Database) (r : Record) : Database :=
  { landholders := upsertRec db.landholders r
    fts_landholders := upsertEntry db.fts_landholders (recordEntry r) }

/-- One step of the import: a valid row is upserted into both tables, a
rejected row (skip-and-log policy) leaves the database untouched. -/
def loadStep (db : Database) (row : RawRow) : Database :=
  match parseRow row with
  | .ok rec => db.upsert rec
  | .error _ => db

/-- Modelled from the spec: import a source file (its parsed rows), row by
row, under the uniform skip-and-log rejection policy. -/
def Database.load_csv (db : Database) (rows : List RawRow) : Database :=
  rows.foldl loadStep db

/-- Modelled from the spec: opening a `Database` against a file; a fresh
file (`none`) yields empty primary and search tables, an existing file is
reused as stored, without data loss. -/
def Database.openStore (file : Option Database) : Database :=
  match file with
  | none => { landholders := [], fts_landholders := [] }
  | some db => db

/-- The records obtained from the rows a source file that parse
successfully, in file order. -/
def validRecs (rows : List RawRow) : List Record :=
  rows.filterMap (fun r => (parseRow r).toOption)

/-- Folding the primary-table upsert over a list of parsed records. -/
def procRecs (t : List Record) (rs : List Record) : List Record :=
  rs.foldl upsertRec t

/-- Modelled from the spec: the FTS tokenizer — maximal alphanumeric runs,
lowercased; everything else separates tokens. -/
def lowerAlnumTokens : List Char → List Char → List (List Char)
  | [], cur => if cur.isEmpty then [] else [cur.reverse]
  | c :: cs, cur =>
    if c.isAlphanum then lowerAlnumTokens cs (c.toLower :: cur)
    else if cur.isEmpty then lowerAlnumTokens cs []
    else cur.reverse :: lowerAlnumTokens cs []

/-- Tokens of a text field. -/
def tokenize (s : String) : List (List Char) :=
  lowerAlnumTokens s.data []

/-- All tokens of a search-index entry, across its three columns. -/
def docTokens (e : FtsEntry) : List (List Char) :=
  tokenize e.name ++ tokenize e.external_id ++ tokenize e.description

/-- Modelled from the spec: a full-text query is a single term, either a
whole word or, with a trailing star, a token-start pattern. -/
inductive FtsQuery where
  | term (t : List Char)
  | starTerm (t : List Char)
deriving DecidableEq, Repr

/-- Parse the caller-supplied match query. -/
def parseQuery (q : String) : FtsQuery :=
  let cs := trimChars q.data
  if cs.getLast? = some '*' then
    .starTerm ((lowerAlnumTokens cs.dropLast []).headD [])
  else .term ((lowerAlnumTokens cs []).headD [])

/-- Modelled from the spec: whether a query matches an index entry —
a whole-word term must occur as a token of one of the three columns, a
starred term must begin some token. -/
def ftsMatch (q : String) (e : FtsEntry) : Bool :=
  match parseQuery q with
  | .term t => (docTokens e).contains t
  | .starTerm t => (docTokens e).any (fun d => d.take t.length == t)

/-- Modelled from the spec: the rows of `fts_landholders` returned by a
`MATCH` query, in table order. -/
def Database.fts_match (db : Database) (q : String) : List FtsEntry :=
  db.fts_landholders.filter (ftsMatch q)

/-- One cell of an SQL result row or an exported dataframe column:
a text value, an exact decimal, or null. -/
inductive Cell where
  | str (v : String)
  | rat (v : ℚ)
  | null
deriving DecidableEq, Repr

/-- The nullable editor attribution as a cell. -/
def editorCell (r : Record) : Cell :=
  match r.editor with
  | some v => Cell.str v
  | none => Cell.null

/-- Modelled from the spec: the tuple shape in which an SQL query returns a
stored row — the record fields in declared order. -/
def recordTuple (r : Record) : List Cell :=
  [Cell.str r.name, Cell.str r.gender, Cell.str r.external_id, Cell.str r.description,
   Cell.rat r.value_a, Cell.rat r.value_b, Cell.rat r.value_c, Cell.rat r.value_d,
   Cell.rat r.value_e, editorCell r, Cell.str r.status]

/-- Modelled from the spec: the bulk export to a column-oriented in-memory
table — one column per record field, in the declared field order. -/
def Database.to_dataframe (db : Database) : List (List Cell) :=
  [db.landholders.map (fun r => Cell.str r.name),
   db.landholders.map (fun r => Cell.str r.gender),
   db.landholders.map (fun r => Cell.str r.external_id),
   db.landholders.map (fun r => Cell.str r.description),
   db.landholders.map (fun r => Cell.rat r.value_a),
   db.landholders.map (fun r => Cell.rat r.value_b),
   db.landholders.map (fun r => Cell.rat r.value_c),
   db.landholders.map (fun r => Cell.rat r.value_d),
   db.landholders.map (fun r => Cell.rat r.value_e),
   db.landholders.map editorCell,
   db.landholders.map (fun r => Cell.str r.status)]

/-- The databases producible by the system: a fresh store followed by any
sequence of loads and single-record upserts. -/
inductive Reachable : Database → Prop where
  | empty : Reachable { landholders := [], fts_landholders := [] }
  | upsert {db : Database} (r : Record) : Reachable db → Reachable (db.upsert r)
  | load {db : Database} (rows : List RawRow) : Reachable db → Reachable (db.load_csv rows)

/-- The last record of a list carrying a given identifier, if any. -/
def lastRec (rs : List Record) (k : String) : Option Record :=
  match rs with
  | [] => none
  | r :: rs =>
    match lastRec rs k with
    | some x => some x
    | none => if r.external_id = k then some r else none

/-- The rows a batch of records appends below a table whose identifiers are
`ks`: one row per fresh identifier, in order of first appearance, holding
the last record carrying that identifier. -/
def newRows (ks : List String) : List Record → List Record
  | [] => []
  | r :: rs =>
    if r.external_id ∈ ks then newRows ks rs
    else ((lastRec rs r.external_id).getD r) :: newRows (r.external_id :: ks) rs

/-- The lockstep invariant: the search index is exactly the projection of
the primary table. -/
def dbInv (db : Database) : Prop :=
  db.fts_landholders = db.landholders.map recordEntry

/-- A pandas float cell as the notebook sees it after a division: a finite
number, a signed infinity, or not-a-number. -/
inductive PdVal where
  | num (v : ℚ)
  | posInf
  | negInf
  | nan
deriving DecidableEq, Repr

/-- Pandas element-wise division: dividing by zero yields an infinity whose
sign follows the dividend, or NaN for zero over zero; no exception is
raised and no row is skipped. -/
def pdDiv (a b : ℚ) : PdVal :=
  if b = 0 then
    if 0 < a then PdVal.posInf else if a < 0 then PdVal.negInf else PdVal.nan
  else PdVal.num (a / b)

/-- Notebook: `df.holder_1066 + df.lord_1066`; the notebook columns
`holder_1066` and `lord_1066` are the first two monetary fields. -/
def total_1066 (r : Record) : ℚ := r.value_a + r.value_b

/-- Notebook: `df.demesne_1086 + df.subtenanted_1086 + df.subtenant_1086`,
the last three monetary fields. -/
def total_1086 (r : Record) : ℚ := r.value_c + r.value_d + r.value_e

/-- Notebook: `df.total_1086 - df.total_1066`, the total change in land
value. -/
def absolute_D (r : Record) : ℚ := total_1086 r - total_1066 r

/-- Notebook: `df.absolute_D / df.total_1066`, the relative change in land
value, computed with no guard on the divisor. -/
def relative_D (r : Record) : PdVal := pdDiv (absolute_D r) (total_1066 r)

/-- The `relative_D` column: the division is applied to every row of the
dataframe. -/
def relative_D_col (rows : List Record) : List PdVal := rows.map relative_D

/-- A Python runtime error raised by a notebook cell. -/
inductive PyError where
  | NameError (ident : String)
deriving DecidableEq, Repr

/-- The notebook's `count_components` calls a function named `hyphenate`,
but no cell and no import defines that name; the failed global lookup is
modelled as `none`. -/
def hyphenate? : Option (String → List (String × String)) := none

/-- Evaluating the call `hyphenate(name)`: a `NameError` when the name is
undefined. -/
def callHyphenate (nm : String) : Except PyError (List (String × String)) :=
  match hyphenate? with
  | some f => Except.ok (f nm)
  | none => Except.error (PyError.NameError "hyphenate")

/-- The loop body of `count_components`: fold over the names, extending the
two occurrence counters (kept as occurrence lists) with the first and second
components of each hyphenation pair. -/
def countComponentsAux (acc : List String × List String) :
    List String → Except PyError (List String × List String)
  | [] => Except.ok acc
  | nm :: rest => do
    let pairs ← callHyphenate nm
    countComponentsAux (acc.1 ++ pairs.map Prod.fst, acc.2 ++ pairs.map Prod.snd) rest

/-- Notebook: `count_components(names)` — count the leading and trailing
components of a list of Germanic names using hyphenation rules. -/
def count_components (names : List String) : Except PyError (List String × List String) :=
  countComponentsAux ([], []) names

/-- Notebook: `generate_names(names, n)` — weighted random recombination of
the counted components; `choices` abstracts `random.choices` over a
population with counter weights. -/
def generate_names (choices : List String → Nat → List String)
    (names : List String) (n : Nat) : Except PyError (List String) := do
  let (ps, ss) ← count_components names
  Except.ok (List.zipWith (fun a b => a ++ b) (choices ps n) (choices ss n))

/-- First row of the README's concrete scenario, as it appears in the
source file. -/
def edwardRow : RawRow :=
  { name := "Edward", gender := "Male", external_id := "Edward 15"
    description := "Edward, king, fl. 1066"
    value_a := "£8,230.05", value_b := "£6,924.10", value_c := "", value_d := "", value_e := ""
    editor := "", status := "2 of 5" }

/-- Second row of the README's concrete scenario. -/
def godricRow : RawRow :=
  { name := "Godric", gender := "Male", external_id := "Godric 57"
    description := "Godric, abbot of Winchcombe, fl. 1066"
    value_a := "", value_b := "", value_c := "", value_d := "", value_e := ""
    editor := "", status := "1 of 5" }

/-- The typed record the loader produces from `edwardRow`. -/
def edwardRec : Record :=
  { name := "Edward", gender := "Male", external_id := "Edward 15"
    description := "Edward, king, fl. 1066"
    value_a := 8230.05, value_b := 6924.10, value_c := 0, value_d := 0, value_e := 0
    editor := none, status := "2 of 5" }

/-- The typed record the loader produces from `godricRow`. -/
def godricRec : Record :=
  { name := "Godric", gender := "Male", external_id := "Godric 57"
    description := "Godric, abbot of Winchcombe, fl. 1066"
    value_a := 0, value_b := 0, value_c := 0, value_d := 0, value_e := 0
    editor := none, status := "1 of 5" }

/-- The two-row source file of the concrete scenario. -/
def sampleFile : List RawRow := [edwardRow, godricRow]

/-- The database after importing the two-row file into a fresh store. -/
def sampleDb : Database := Database.load_csv { landholders := [], fts_landholders := [] } sampleFile

/-- A raw row with a blank identifier (rejected as `MissingIdentifier`). -/
def blankIdRow : RawRow :=
  { name := "Anon", gender := "Male", external_id := "  "
    description := "no identifier"
    value_a := "", value_b := "", value_c := "", value_d := "", value_e := ""
    editor := "", status := "0 of 5" }

/-- A raw row with an unparseable monetary value (rejected as
`MalformedRow`). -/
def badMoneyRow : RawRow :=
  { name := "Wulfric", gender := "Male", external_id := "Wulfric 1"
    description := "bad money"
    value_a := "ten hides", value_b := "", value_c := "", value_d := "", value_e := ""
    editor := "", status := "0 of 5" }

/-- A record with no holdings at all (a zero divisor for `relative_D`). -/
def zeroRec : Record :=
  { name := "Aelfric", gender := "Male", external_id := "Aelfric 9"
    description := "no holdings"
    value_a := 0, value_b := 0, value_c := 0, value_d := 0, value_e := 0
    editor := none, status := "1 of 5" }

theorem upsertRec_not_mem {t : List Record} {r : Record}
    (h : r.external_id ∉ t.map Record.external_id) : upsertRec t r = t ++ [r] := by
  induction t with
  | nil => rfl
  | cons x xs ih =>
    simp only [List.map_cons, List.mem_cons, not_or] at h
    rw [upsertRec, if_neg (fun hx => h.1 hx.symm), ih h.2]
    rfl

theorem upsertRec_mem_map {t : List Record} {r : Record}
    (hn : (t.map Record.external_id).Nodup) (hm : r.external_id ∈ t.map Record.external_id) :
    upsertRec t r = t.map (fun x => if x.external_id = r.external_id then r else x) := by
  induction t with
  | nil => simp at hm
  | cons x xs ih =>
    simp only [List.map_cons, List.nodup_cons] at hn
    by_cases hx : x.external_id = r.external_id
    · rw [upsertRec, if_pos hx, List.map_cons, if_pos hx]
      have : ∀ y ∈ xs, (if y.external_id = r.external_id then r else y) = y := by
        intro y hy
        rw [if_neg]
        intro hy'
        exact hn.1 (hx ▸ hy' ▸ List.mem_map_of_mem Record.external_id hy)
      rw [List.map_congr_left this]
      simp
    · have hm' : r.external_id ∈ xs.map Record.external_id := by
        rcases List.mem_cons.mp hm with h | h
        · exact absurd h.symm hx
        · exact h
      rw [upsertRec, if_neg hx, List.map_cons, if_neg hx, ih hn.2 hm']

theorem lastRec_key {rs : List Record} {k : String} {x : Record} :
    lastRec rs k = some x → x.external_id = k := by
  induction rs with
  | nil => intro h; simp [lastRec] at h
  | cons r rs ih =>
    intro h
    rw [lastRec] at h
    rcases hr : lastRec rs k with _ | y
    · rw [hr] at h
      by_cases hrk : r.external_id = k
      · rw [if_pos hrk] at h
        injection h with h'
        rw [← h']
        exact hrk
      · rw [if_neg hrk] at h
        exact absurd h (by simp)
    · rw [hr] at h
      injection h with h'
      exact ih (h' ▸ hr)

theorem newRows_congr :
    ∀ (rs : List Record) {ks₁ ks₂ : List String},
      (∀ k, k ∈ ks₁ ↔ k ∈ ks₂) → newRows ks₁ rs = newRows ks₂ rs := by
  intro rs
  induction rs with
  | nil => intro ks₁ ks₂ _; rfl
  | cons r rs ih =>
    intro ks₁ ks₂ h
    rw [newRows, newRows]
    by_cases hk : r.external_id ∈ ks₁
    · rw [if_pos hk, if_pos ((h _).mp hk)]
      exact ih h
    · rw [if_neg hk, if_neg (fun hx => hk ((h _).mpr hx))]
      congr 1
      refine ih fun k => ?_
      simp only [List.mem_cons]
      exact or_congr Iff.rfl (h k)

theorem newRows_nil {ks : List String} :
    ∀ {rs : List Record}, (∀ r ∈ rs, r.external_id ∈ ks) → newRows ks rs = [] := by
  intro rs
  induction rs generalizing ks with
  | nil => intro _; rfl
  | cons r rs ih =>
    intro h
    rw [newRows, if_pos (h r (List.mem_cons_self r rs))]
    exact ih fun x hx => h x (List.mem_cons_of_mem r hx)

theorem mem_newRows :
    ∀ {rs : List Record} {ks : List String} {x : Record},
      x ∈ newRows ks rs → lastRec rs x.external_id = some x := by
  intro rs
  induction rs with
  | nil => intro ks x h; simp [newRows] at h
  | cons r rs ih =>
    intro ks x h
    rw [newRows] at h
    by_cases hk : r.external_id ∈ ks
    · rw [if_pos hk] at h
      simp [lastRec, ih h]
    · rw [if_neg hk] at h
      rcases List.mem_cons.mp h with h1 | h1
      · subst h1
        rcases hl : lastRec rs r.external_id with _ | y
        · simp [lastRec, hl]
        · have hy := lastRec_key hl
          simp [lastRec, hl, hy]
      · simp [lastRec, ih h1]

theorem newRows_keys_mem :
    ∀ {rs : List Record} {ks : List String} {k : String},
      k ∈ rs.map Record.external_id → k ∉ ks →
      k ∈ (newRows ks rs).map Record.external_id := by
  intro rs
  induction rs with
  | nil => intro ks k h _; simp at h
  | cons r rs ih =>
    intro ks k h hk
    rw [List.map_cons] at h
    rw [newRows]
    by_cases hr : r.external_id ∈ ks
    · rcases List.mem_cons.mp h with h1 | h1
      · exact absurd (h1 ▸ hr) hk
      · rw [if_pos hr]
        exact ih h1 hk
    · rw [if_neg hr]
      by_cases hkr : k = r.external_id
      · rcases hl : lastRec rs r.external_id with _ | y
        · simp [hl, hkr]
        · simp [hl, hkr, lastRec_key hl]
      · rcases List.mem_cons.mp h with h1 | h1
        · exact absurd h1 hkr
        · have := @ih (r.external_id :: ks) k h1
            (by simp only [List.mem_cons, not_or]; exact ⟨hkr, hk⟩)
          simp only [List.map_cons, List.mem_cons]
          exact Or.inr this

theorem newRows_keys_fresh :
    ∀ {rs : List Record} {ks : List String},
      ((newRows ks rs).map Record.external_id).Nodup ∧
      ∀ k ∈ (newRows ks rs).map Record.external_id, k ∉ ks := by
  intro rs
  induction rs with
  | nil => intro ks; simp [newRows]
  | cons r rs ih =>
    intro ks
    rw [newRows]
    by_cases hr : r.external_id ∈ ks
    · rw [if_pos hr]
      exact ih
    · rw [if_neg hr]
      have hkey : ((lastRec rs r.external_id).getD r).external_id = r.external_id := by
        rcases hl : lastRec rs r.external_id with _ | y
        · simp
        · simp [lastRec_key hl]
      constructor
      · simp only [List.map_cons, List.nodup_cons, hkey]
        constructor
        · intro hmem
          exact (ih.2 _ hmem) (List.mem_cons_self _ _)
        · exact ih.1
      · intro k hk
        simp only [List.map_cons, List.mem_cons, hkey] at hk
        rcases hk with h1 | h1
        · exact h1 ▸ hr
        · intro hks
          exact (ih.2 _ h1) (List.mem_cons_of_mem _ hks)

theorem lastRec_cons_ne {r : Record} {rs : List Record} {k : String}
    (h : r.external_id ≠ k) : lastRec (r :: rs) k = lastRec rs k := by
  rw [lastRec]
  rcases hl : lastRec rs k with _ | y
  · simp [h]
  · rfl

theorem lastRec_cons_self {r : Record} {rs : List Record} :
    lastRec (r :: rs) r.external_id = some ((lastRec rs r.external_id).getD r) := by
  rw [lastRec]
  rcases hl : lastRec rs r.external_id with _ | y <;> simp

theorem procRecs_char :
    ∀ (rs t : List Record), (t.map Record.external_id).Nodup →
      procRecs t rs =
        t.map (fun row => (lastRec rs row.external_id).getD row) ++
          newRows (t.map Record.external_id) rs := by
  intro rs
  induction rs with
  | nil =>
    intro t _
    simp [procRecs, newRows, lastRec]
  | cons r rs ih =>
    intro t hn
    have hstep : procRecs t (r :: rs) = procRecs (upsertRec t r) rs := rfl
    rw [hstep]
    by_cases hmem : r.external_id ∈ t.map Record.external_id
    · rw [upsertRec_mem_map hn hmem]
      have hkeys :
          ((t.map fun x => if x.external_id = r.external_id then r else x).map
            Record.external_id) = t.map Record.external_id := by
        rw [List.map_map]
        refine List.map_congr_left fun x _ => ?_
        by_cases hx : x.external_id = r.external_id
        · simp [Function.comp, hx]
        · simp [Function.comp, hx]
      rw [ih _ (hkeys ▸ hn), hkeys]
      congr 1
      · rw [List.map_map]
        refine List.map_congr_left fun x _ => ?_
        by_cases hx : x.external_id = r.external_id
        · simp only [Function.comp, if_pos hx, hx, lastRec_cons_self]
          rcases hl : lastRec rs r.external_id with _ | y <;> simp [hl]
        · simp only [Function.comp, if_neg hx, lastRec_cons_ne fun h => hx h.symm]
      · conv_rhs => rw [newRows, if_pos hmem]
    · rw [upsertRec_not_mem hmem]
      have hkeys : ((t ++ [r]).map Record.external_id) =
          t.map Record.external_id ++ [r.external_id] := by simp
      have hn' : (((t ++ [r]).map Record.external_id)).Nodup := by
        rw [hkeys]
        refine List.Nodup.append hn (List.nodup_singleton _) ?_
        intro x hx
        simp only [List.mem_singleton]
        exact fun he => hmem (he ▸ hx)
      rw [ih _ hn', hkeys, List.map_append]
      conv_rhs => rw [newRows, if_neg hmem]
      rw [List.append_assoc]
      congr 1
      · refine List.map_congr_left fun x hx => ?_
        have hxk : x.external_id ≠ r.external_id :=
          fun he => hmem (he ▸ List.mem_map_of_mem _ hx)
        rw [lastRec_cons_ne fun h => hxk h.symm]
      · simp only [List.map_cons, List.map_nil, List.singleton_append]
        congr 1
        exact newRows_congr rs fun k => by
          simp only [List.mem_append, List.mem_singleton, List.mem_cons,
            List.not_mem_nil, or_false]
          exact or_comm

theorem procRecs_idem (rs t : List Record)
    (hn : (t.map Record.external_id).Nodup) :
    procRecs (procRecs t rs) rs = procRecs t rs := by
  have h1 := procRecs_char rs t hn
  have hfkey : ∀ row : Record,
      ((lastRec rs row.external_id).getD row).external_id = row.external_id := by
    intro row
    rcases hl : lastRec rs row.external_id with _ | y
    · simp
    · simp [lastRec_key hl]
  have hTkeys : (procRecs t rs).map Record.external_id =
      t.map Record.external_id ++
        (newRows (t.map Record.external_id) rs).map Record.external_id := by
    rw [h1, List.map_append, List.map_map]
    congr 1
    exact List.map_congr_left fun x _ => hfkey x
  have hTnodup : ((procRecs t rs).map Record.external_id).Nodup := by
    rw [hTkeys]
    refine List.Nodup.append hn newRows_keys_fresh.1 ?_
    intro x hx hx2
    exact newRows_keys_fresh.2 x hx2 hx
  rw [procRecs_char rs (procRecs t rs) hTnodup]
  have hcover : ∀ x ∈ rs, x.external_id ∈ (procRecs t rs).map Record.external_id := by
    intro x hx
    rw [hTkeys]
    by_cases hk : x.external_id ∈ t.map Record.external_id
    · exact List.mem_append_left _ hk
    · exact List.mem_append_right _ (newRows_keys_mem (List.mem_map_of_mem _ hx) hk)
  rw [newRows_nil hcover, List.append_nil]
  have hfix : ∀ x ∈ procRecs t rs, (lastRec rs x.external_id).getD x = x := by
    intro x hx
    rw [h1] at hx
    rcases List.mem_append.mp hx with hx | hx
    · rcases List.mem_map.mp hx with ⟨y, _, rfl⟩
      rcases hl : lastRec rs y.external_id with _ | z
      · simp [hl]
      · simp only [hl, Option.getD_some, lastRec_key hl, hl]
    · simp [mem_newRows hx]
  rw [List.map_congr_left hfix]
  simp

theorem upsertRec_replace {t : List Record} {r : Record}
    (hm : r.external_id ∈ t.map Record.external_id) :
    (upsertRec t r).map Record.external_id = t.map Record.external_id ∧
      (upsertRec t r).length = t.length ∧ r ∈ upsertRec t r := by
  induction t with
  | nil => simp at hm
  | cons x xs ih =>
    rw [upsertRec]
    by_cases hx : x.external_id = r.external_id
    · rw [if_pos hx]
      exact ⟨by simp [hx], by simp, List.mem_cons_self _ _⟩
    · rw [if_neg hx]
      have hm' : r.external_id ∈ xs.map Record.external_id := by
        rw [List.map_cons] at hm
        rcases List.mem_cons.mp hm with h1 | h1
        · exact absurd h1.symm hx
        · exact h1
      rcases ih hm' with ⟨h1, h2, h3⟩
      exact ⟨by simp [h1], by simp [h2], List.mem_cons_of_mem _ h3⟩

theorem load_csv_landholders :
    ∀ (rows : List RawRow) (db : Database),
      (db.load_csv rows).landholders = procRecs db.landholders (validRecs rows) := by
  intro rows
  induction rows with
  | nil => intro db; rfl
  | cons row rows ih =>
    intro db
    have h1 : db.load_csv (row :: rows) = (loadStep db row).load_csv rows := rfl
    rw [h1]
    rcases hp : parseRow row with e | rec
    · have h2 : loadStep db row = db := by rw [loadStep, hp]
      have h3 : validRecs (row :: rows) = validRecs rows := by
        simp [validRecs, hp, Except.toOption]
      rw [h2, ih, h3]
    · have h2 : loadStep db row = db.upsert rec := by rw [loadStep, hp]
      have h3 : validRecs (row :: rows) = rec :: validRecs rows := by
        simp [validRecs, hp, Except.toOption]
      rw [h2, ih, h3]
      rfl

theorem parseMoney_blank {s : String} (h : trimChars s.data = []) :
    parseMoney s = some 0 := by
  simp [parseMoney, h]

theorem parseRow_ok_money {r : RawRow} {rec : Record} (h : parseRow r = .ok rec) :
    parseMoney r.value_a = some rec.value_a ∧ parseMoney r.value_b = some rec.value_b ∧
    parseMoney r.value_c = some rec.value_c ∧ parseMoney r.value_d = some rec.value_d ∧
    parseMoney r.value_e = some rec.value_e := by
  rw [parseRow] at h
  split at h
  · exact absurd h (by simp)
  · split at h
    · injection h with h'
      subst h'
      simp_all
    · exact absurd h (by simp)

theorem mem_upsertRec {t : List Record} {r x : Record} :
    x ∈ upsertRec t r → x ∈ t ∨ x = r := by
  induction t with
  | nil => intro h; simp [upsertRec] at h; exact Or.inr h
  | cons y ys ih =>
    intro h
    rw [upsertRec] at h
    by_cases hy : y.external_id = r.external_id
    · rw [if_pos hy] at h
      rcases List.mem_cons.mp h with h1 | h1
      · exact Or.inr h1
      · exact Or.inl (List.mem_cons_of_mem _ h1)
    · rw [if_neg hy] at h
      rcases List.mem_cons.mp h with h1 | h1
      · exact Or.inl (h1 ▸ List.mem_cons_self _ _)
      · rcases ih h1 with h2 | h2
        · exact Or.inl (List.mem_cons_of_mem _ h2)
        · exact Or.inr h2

theorem mem_procRecs :
    ∀ {rs t : List Record} {x : Record}, x ∈ procRecs t rs → x ∈ t ∨ x ∈ rs := by
  intro rs
  induction rs with
  | nil => intro t x h; exact Or.inl h
  | cons r rs ih =>
    intro t x h
    have h1 : procRecs t (r :: rs) = procRecs (upsertRec t r) rs := rfl
    rw [h1] at h
    rcases ih h with h2 | h2
    · rcases mem_upsertRec h2 with h3 | h3
      · exact Or.inl h3
      · exact Or.inr (h3 ▸ List.mem_cons_self _ _)
    · exact Or.inr (List.mem_cons_of_mem _ h2)

theorem mem_load_csv {db : Database} {rows : List RawRow} {rec : Record}
    (h : rec ∈ (db.load_csv rows).landholders) :
    rec ∈ db.landholders ∨ ∃ row ∈ rows, parseRow row = .ok rec := by
  rw [load_csv_landholders] at h
  rcases mem_procRecs h with h1 | h1
  · exact Or.inl h1
  · rcases List.mem_filterMap.mp h1 with ⟨row, hrow, hok⟩
    refine Or.inr ⟨row, hrow, ?_⟩
    rcases hp : parseRow row with e | rec'
    · rw [hp] at hok
      simp [Except.toOption] at hok
    · rw [hp] at hok
      simp [Except.toOption] at hok
      rw [hok]

theorem upsertEntry_map {t : List Record} {r : Record} :
    upsertEntry (t.map recordEntry) (recordEntry r) = (upsertRec t r).map recordEntry := by
  induction t with
  | nil => rfl
  | cons x xs ih =>
    rw [List.map_cons, upsertEntry, upsertRec]
    by_cases hx : x.external_id = r.external_id
    · rw [if_pos hx,
        if_pos (show (recordEntry x).external_id = (recordEntry r).external_id from hx),
        List.map_cons]
    · rw [if_neg hx,
        if_neg (show ¬(recordEntry x).external_id = (recordEntry r).external_id from hx),
        List.map_cons, ih]

theorem dbInv_upsert {db : Database} {r : Record} (h : dbInv db) :
    dbInv (db.upsert r) := by
  unfold dbInv at h ⊢
  rw [Database.upsert, h]
  exact upsertEntry_map

theorem dbInv_loadStep {db : Database} {row : RawRow} (h : dbInv db) :
    dbInv (loadStep db row) := by
  rcases hp : parseRow row with e | rec
  · rw [loadStep, hp]
    exact h
  · rw [loadStep, hp]
    exact dbInv_upsert h

theorem dbInv_load {db : Database} {rows : List RawRow} (h : dbInv db) :
    dbInv (db.load_csv rows) := by
  induction rows generalizing db with
  | nil => exact h
  | cons row rows ih =>
    have h1 : db.load_csv (row :: rows) = (loadStep db row).load_csv rows := rfl
    rw [h1]
    exact ih (dbInv_loadStep h)

theorem reachable_inv {db : Database} (h : Reachable db) : dbInv db := by
  induction h with
  | empty => rfl
  | upsert r _ ih => exact dbInv_upsert ih
  | load rows _ ih => exact dbInv_load ih

theorem parseRow_missing {r : RawRow} (h : trimChars r.external_id.data = []) :
    parseRow r = .error .MissingIdentifier := by
  rw [parseRow, if_pos (by simp [h])]

theorem parseRow_malformed {r : RawRow} (hid : ¬trimChars r.external_id.data = [])
    (h : parseMoney r.value_a = none ∨ parseMoney r.value_b = none ∨
      parseMoney r.value_c = none ∨ parseMoney r.value_d = none ∨
      parseMoney r.value_e = none) :
    parseRow r = .error .MalformedRow := by
  rw [parseRow, if_neg (by simp [hid])]
  rcases ha : parseMoney r.value_a with _ | a <;>
    rcases hb : parseMoney r.value_b with _ | b <;>
    rcases hc : parseMoney r.value_c with _ | c <;>
    rcases hd : parseMoney r.value_d with _ | d <;>
    rcases he : parseMoney r.value_e with _ | e <;>
    simp_all

theorem load_csv_skips {db : Database} {xs ys : List RawRow} {r : RawRow} {e : LoadError}
    (h : parseRow r = .error e) :
    db.load_csv (xs ++ r :: ys) = db.load_csv (xs ++ ys) := by
  have hstep : ∀ d : Database, loadStep d r = d := fun d => by rw [loadStep, h]
  unfold Database.load_csv
  rw [List.foldl_append, List.foldl_append, List.foldl_cons, hstep]

theorem mem_lowerAlnumTokens_substr :
    ∀ (cs cur t : List Char), t ∈ lowerAlnumTokens cs cur →
      t <:+: (cur.reverse ++ cs.map Char.toLower) := by
  intro cs
  induction cs with
  | nil =>
    intro cur t h
    rw [lowerAlnumTokens] at h
    by_cases hc : cur.isEmpty
    · rw [if_pos hc] at h
      simp at h
    · rw [if_neg hc] at h
      rcases List.mem_singleton.mp h with rfl
      simp
  | cons c cs ih =>
    intro cur t h
    rw [lowerAlnumTokens] at h
    by_cases hc : c.isAlphanum
    · rw [if_pos hc] at h
      have h2 := ih (c.toLower :: cur) t h
      simpa [List.append_assoc] using h2
    · rw [if_neg hc] at h
      have hsub : (cs.map Char.toLower) <:+: (cur.reverse ++ (c :: cs).map Char.toLower) :=
        ⟨cur.reverse ++ [c.toLower], [], by simp⟩
      by_cases hcur : cur.isEmpty
      · rw [if_pos hcur] at h
        have h2 := ih [] t h
        simp only [List.reverse_nil, List.nil_append] at h2
        exact h2.trans hsub
      · rw [if_neg hcur] at h
        rcases List.mem_cons.mp h with h1 | h1
        · subst h1
          exact ⟨[], c.toLower :: cs.map Char.toLower, by simp⟩
        · have h2 := ih [] t h1
          simp only [List.reverse_nil, List.nil_append] at h2
          exact h2.trans hsub

theorem mem_tokenize_substr {s : String} {t : List Char} (h : t ∈ tokenize s) :
    t <:+: s.data.map Char.toLower := by
  have h2 := mem_lowerAlnumTokens_substr s.data [] t h
  simpa using h2

theorem fts_term_match_substr {e : FtsEntry} {t : List Char}
    (h : (docTokens e).contains t = true) :
    t <:+: e.name.data.map Char.toLower ∨ t <:+: e.external_id.data.map Char.toLower ∨
      t <:+: e.description.data.map Char.toLower := by
  have h2 : t ∈ docTokens e := by simpa using h
  rw [docTokens] at h2
  rcases List.mem_append.mp h2 with h3 | h3
  · rcases List.mem_append.mp h3 with h4 | h4
    · exact Or.inl (mem_tokenize_substr h4)
    · exact Or.inr (Or.inl (mem_tokenize_substr h4))
  · exact Or.inr (Or.inr (mem_tokenize_substr h3))

theorem parseMoney_a : parseMoney "£8,230.05" = some (8230.05 : ℚ) := by
  simp [parseMoney, trimChars, stripCurrency, parseDecimal, splitDot, digitsToNat]
  norm_num

theorem parseMoney_b : parseMoney "£6,924.10" = some (6924.10 : ℚ) := by
  simp [parseMoney, trimChars, stripCurrency, parseDecimal, splitDot, digitsToNat]
  norm_num

theorem parseMoney_empty : parseMoney "" = some 0 := rfl

theorem parseRow_edward : parseRow edwardRow = .ok edwardRec := by
  simp [parseRow, edwardRow, edwardRec, parseMoney_a, parseMoney_b, parseMoney_empty, trimChars]

theorem parseRow_godric : parseRow godricRow = .ok godricRec := by
  simp [parseRow, godricRow, godricRec, parseMoney_empty, trimChars]

theorem sampleDb_eq :
    sampleDb = { landholders := [edwardRec, godricRec]
                 fts_landholders := [recordEntry edwardRec, recordEntry godricRec] } := by
  simp [sampleDb, sampleFile, Database.load_csv, loadStep, parseRow_edward, parseRow_godric,
    Database.upsert, upsertRec, upsertEntry, recordEntry, edwardRec, godricRec]

/-- Claim C1: for every source file and every store whose table satisfies the
identifier-uniqueness invariant, importing the file twice in succession
leaves the primary table exactly as importing it once; and an upsert whose
identifier is already present replaces the stored row in place rather than
adding a duplicate. -/
theorem import_twice_eq_import_once :
    (∀ (db : Database) (rows : List RawRow),
        (db.landholders.map Record.external_id).Nodup →
        ((db.load_csv rows).load_csv rows).landholders = (db.load_csv rows).landholders) ∧
    (∀ (t : List Record) (r : Record),
        r.external_id ∈ t.map Record.external_id →
        (upsertRec t r).map Record.external_id = t.map Record.external_id ∧
          (upsertRec t r).length = t.length ∧ r ∈ upsertRec t r) := by
  constructor
  · intro db rows hn
    simp only [load_csv_landholders]
    exact procRecs_idem (validRecs rows) db.landholders hn
  · intro t r hm
    exact upsertRec_replace hm

theorem import_twice_eq_import_once_witness :
    (((⟨[], []⟩ : Database).load_csv sampleFile).load_csv sampleFile).landholders =
      ((⟨[], []⟩ : Database).load_csv sampleFile).landholders ∧
    (upsertRec [godricRec] godricRec).map Record.external_id =
      [godricRec].map Record.external_id :=
  ⟨import_twice_eq_import_once.1 ⟨[], []⟩ sampleFile (by simp),
   (import_twice_eq_import_once.2 [godricRec] godricRec (by simp)).1⟩

/-- Claim C2: for every imported row, each stored monetary field is the
exact decimal parsed from the source text by stripping the currency symbol
and thousands separators, and a blank monetary field is stored as exactly
zero; concretely, a source text of the shape of the README example parses to
the exact value 8230.05, and the empty source text to 0. -/
theorem monetary_fields_exact :
    (∀ (r : RawRow) (rec : Record), parseRow r = .ok rec →
        (parseMoney r.value_a = some rec.value_a ∧
          (trimChars r.value_a.data = [] → rec.value_a = 0)) ∧
        (parseMoney r.value_b = some rec.value_b ∧
          (trimChars r.value_b.data = [] → rec.value_b = 0)) ∧
        (parseMoney r.value_c = some rec.value_c ∧
          (trimChars r.value_c.data = [] → rec.value_c = 0)) ∧
        (parseMoney r.value_d = some rec.value_d ∧
          (trimChars r.value_d.data = [] → rec.value_d = 0)) ∧
        (parseMoney r.value_e = some rec.value_e ∧
          (trimChars r.value_e.data = [] → rec.value_e = 0))) ∧
    (∀ (db : Database) (rows : List RawRow) (rec : Record),
        rec ∈ (db.load_csv rows).landholders →
        rec ∈ db.landholders ∨ ∃ row ∈ rows, parseRow row = .ok rec) ∧
    stripCurrency "£8,230.05".data = "8230.05".data ∧
    parseMoney "£8,230.05" = some (8230.05 : ℚ) ∧
    parseMoney "" = some 0 := by
  refine ⟨?_, fun db rows rec h => mem_load_csv h, by decide, parseMoney_a, parseMoney_empty⟩
  intro r rec h
  obtain ⟨ha, hb, hc, hd, he⟩ := parseRow_ok_money h
  refine ⟨⟨ha, fun hz => ?_⟩, ⟨hb, fun hz => ?_⟩, ⟨hc, fun hz => ?_⟩,
    ⟨hd, fun hz => ?_⟩, ⟨he, fun hz => ?_⟩⟩
  · rw [parseMoney_blank hz] at ha
    exact (Option.some.inj ha).symm
  · rw [parseMoney_blank hz] at hb
    exact (Option.some.inj hb).symm
  · rw [parseMoney_blank hz] at hc
    exact (Option.some.inj hc).symm
  · rw [parseMoney_blank hz] at hd
    exact (Option.some.inj hd).symm
  · rw [parseMoney_blank hz] at he
    exact (Option.some.inj he).symm

theorem monetary_fields_exact_witness :
    (parseMoney edwardRow.value_a = some edwardRec.value_a ∧
      parseMoney edwardRow.value_c = some edwardRec.value_c) ∧
    (godricRec ∈ (⟨[], []⟩ : Database).landholders ∨
      ∃ row ∈ sampleFile, parseRow row = .ok godricRec) := by
  constructor
  · have h := monetary_fields_exact.1 edwardRow edwardRec parseRow_edward
    exact ⟨h.1.1, h.2.2.1.1⟩
  · refine monetary_fields_exact.2.1 ⟨[], []⟩ sampleFile godricRec ?_
    rw [show (⟨[], []⟩ : Database).load_csv sampleFile = sampleDb from rfl, sampleDb_eq]
    simp

/-- Claim C3: in every reachable store, each row of the primary table has a
search-index entry equal to its `(name, external_id, description)`
projection, and each search-index entry is the projection of some
primary-table row. -/
theorem search_index_lockstep (db : Database) (h : Reachable db) :
    (∀ r ∈ db.landholders, recordEntry r ∈ db.fts_landholders) ∧
    (∀ e ∈ db.fts_landholders, ∃ r, r ∈ db.landholders ∧ e = recordEntry r) := by
  have hinv := reachable_inv h
  constructor
  · intro r hr
    rw [hinv]
    exact List.mem_map_of_mem _ hr
  · intro e he
    rw [hinv] at he
    rcases List.mem_map.mp he with ⟨r, hr, rfl⟩
    exact ⟨r, hr, rfl⟩

theorem search_index_lockstep_witness :
    recordEntry godricRec ∈ sampleDb.fts_landholders := by
  refine (search_index_lockstep sampleDb
    (Reachable.load sampleFile Reachable.empty)).1 godricRec ?_
  rw [sampleDb_eq]
  simp

/-- Claim C4: one import step is atomic over the two tables — either the row
is rejected and both the primary table and the search index are left exactly
as they were, or the row's record is upserted into the primary table and its
projection into the search index together. -/
theorem load_row_atomic (db : Database) (row : RawRow) :
    loadStep db row = db ∨
      ∃ rec, parseRow row = .ok rec ∧
        (loadStep db row).landholders = upsertRec db.landholders rec ∧
        (loadStep db row).fts_landholders =
          upsertEntry db.fts_landholders (recordEntry rec) := by
  rcases hp : parseRow row with e | rec
  · left
    rw [loadStep, hp]
  · right
    exact ⟨rec, rfl, by rw [loadStep, hp]; rfl, by rw [loadStep, hp]; rfl⟩

/-- Claim C5: a full-text query returns exactly the index entries it
matches; a matched whole-word term occurs inside the lowercased text of one
of the three indexed columns; and on the imported two-row file the query
"godric" returns exactly the Godric row's projection. -/
theorem fts_query_exact :
    (∀ (db : Database) (q : String) (e : FtsEntry),
        e ∈ db.fts_match q ↔ e ∈ db.fts_landholders ∧ ftsMatch q e = true) ∧
    (∀ (db : Database) (q : String) (e : FtsEntry) (t : List Char),
        parseQuery q = .term t → e ∈ db.fts_match q →
        t <:+: e.name.data.map Char.toLower ∨
          t <:+: e.external_id.data.map Char.toLower ∨
          t <:+: e.description.data.map Char.toLower) ∧
    sampleDb.fts_match "godric" = [recordEntry godricRec] ∧
    recordEntry godricRec =
      { name := "Godric", external_id := "Godric 57"
        description := "Godric, abbot of Winchcombe, fl. 1066" } := by
  refine ⟨?_, ?_, ?_, rfl⟩
  · intro db q e
    exact List.mem_filter
  · intro db q e t hq he
    have hm : ftsMatch q e = true := (List.mem_filter.mp he).2
    rw [ftsMatch, hq] at hm
    exact fts_term_match_substr hm
  · rw [sampleDb_eq]
    decide

theorem fts_query_exact_witness :
    "godric".data <:+: (recordEntry godricRec).name.data.map Char.toLower ∨
    "godric".data <:+: (recordEntry godricRec).external_id.data.map Char.toLower ∨
    "godric".data <:+: (recordEntry godricRec).description.data.map Char.toLower := by
  refine fts_query_exact.2.1 sampleDb "godric" (recordEntry godricRec) "godric".data
    (by decide) ?_
  rw [show sampleDb.fts_match "godric" =
    (Database.fts_match ⟨[edwardRec, godricRec],
      [recordEntry edwardRec, recordEntry godricRec]⟩ "godric") from by rw [sampleDb_eq]]
  decide

/-- Claim C6: a row with a blank identifier is rejected as
`MissingIdentifier`, a row with an unparseable monetary text (and a present
identifier) is rejected as `MalformedRow`, and under the uniform
skip-and-log policy a rejected row, wherever it sits in the file, leaves the
whole database exactly as if the row were absent. -/
theorem invalid_rows_rejected :
    (∀ r : RawRow, trimChars r.external_id.data = [] →
        parseRow r = .error .MissingIdentifier) ∧
    (∀ r : RawRow, ¬trimChars r.external_id.data = [] →
        (parseMoney r.value_a = none ∨ parseMoney r.value_b = none ∨
          parseMoney r.value_c = none ∨ parseMoney r.value_d = none ∨
          parseMoney r.value_e = none) →
        parseRow r = .error .MalformedRow) ∧
    (∀ (db : Database) (xs ys : List RawRow) (r : RawRow) (e : LoadError),
        parseRow r = .error e →
        db.load_csv (xs ++ r :: ys) = db.load_csv (xs ++ ys)) :=
  ⟨fun _ h => parseRow_missing h,
   fun _ h1 h2 => parseRow_malformed h1 h2,
   fun _ _ _ _ _ h => load_csv_skips h⟩

theorem invalid_rows_rejected_witness :
    parseRow blankIdRow = .error .MissingIdentifier ∧
    parseRow badMoneyRow = .error .MalformedRow ∧
    Database.load_csv ⟨[], []⟩ ([godricRow] ++ blankIdRow :: []) =
      Database.load_csv ⟨[], []⟩ ([godricRow] ++ []) :=
  ⟨invalid_rows_rejected.1 blankIdRow (by decide),
   invalid_rows_rejected.2.1 badMoneyRow (by decide) (Or.inl (by decide)),
   invalid_rows_rejected.2.2 ⟨[], []⟩ [godricRow] [] blankIdRow .MissingIdentifier
     (invalid_rows_rejected.1 blankIdRow (by decide))⟩

theorem bind_col_eq (l : List Record) (f : Record → Cell) (j : Nat)
    (g : Record → Option Cell) (hg : ∀ r, g r = some (f r)) :
    ((l.map f).get? j) = Option.bind (l.get? j) g := by
  rw [List.get?_map]
  cases hj : l.get? j with
  | none => rfl
  | some r => exact (hg r).symm

/-- Claim C7: the export has exactly one column per record field, each
column holds one cell per primary-table row, and the cell at column `i`,
row `j` is the `i`-th component of the SQL tuple of the `j`-th stored row —
the columns are the record fields in declared order. -/
theorem to_dataframe_shape :
    (∀ db : Database, db.to_dataframe.length = 11) ∧
    (∀ db : Database, ∀ col ∈ db.to_dataframe, col.length = db.landholders.length) ∧
    (∀ (db : Database) (i j : Nat),
        Option.bind (db.to_dataframe.get? i) (fun col => col.get? j) =
          Option.bind (db.landholders.get? j) (fun r => (recordTuple r).get? i)) := by
  refine ⟨fun db => rfl, ?_, ?_⟩
  · intro db col hcol
    rw [Database.to_dataframe] at hcol
    simp only [List.mem_cons, List.not_mem_nil, or_false] at hcol
    rcases hcol with rfl|rfl|rfl|rfl|rfl|rfl|rfl|rfl|rfl|rfl|rfl <;> simp
  · intro db i j
    rcases Nat.lt_or_ge i 11 with hi | hi
    · interval_cases i
      · exact bind_col_eq db.landholders (fun r => Cell.str r.name) j _ fun r => rfl
      · exact bind_col_eq db.landholders (fun r => Cell.str r.gender) j _ fun r => rfl
      · exact bind_col_eq db.landholders (fun r => Cell.str r.external_id) j _ fun r => rfl
      · exact bind_col_eq db.landholders (fun r => Cell.str r.description) j _ fun r => rfl
      · exact bind_col_eq db.landholders (fun r => Cell.rat r.value_a) j _ fun r => rfl
      · exact bind_col_eq db.landholders (fun r => Cell.rat r.value_b) j _ fun r => rfl
      · exact bind_col_eq db.landholders (fun r => Cell.rat r.value_c) j _ fun r => rfl
      · exact bind_col_eq db.landholders (fun r => Cell.rat r.value_d) j _ fun r => rfl
      · exact bind_col_eq db.landholders (fun r => Cell.rat r.value_e) j _ fun r => rfl
      · exact bind_col_eq db.landholders editorCell j _ fun r => rfl
      · exact bind_col_eq db.landholders (fun r => Cell.str r.status) j _ fun r => rfl
    · have h1 : db.to_dataframe.get? i = none := List.get?_eq_none.mpr hi
      rw [h1]
      cases hj : db.landholders.get? j with
      | none => rfl
      | some r =>
        have h2 : (recordTuple r).get? i = none := List.get?_eq_none.mpr hi
        exact h2.symm

theorem to_dataframe_shape_witness :
    (sampleDb.landholders.map fun r => Cell.str r.name).length =
      sampleDb.landholders.length :=
  to_dataframe_shape.2.1 sampleDb _ (by rw [Database.to_dataframe]; exact List.mem_cons_self _ _)

/-- Claim C8: opening a store on a fresh file creates the primary table and
the search index empty; opening on an existing database file returns the
stored state unchanged, losing no row. -/
theorem openStore_fresh_or_reuse :
    (Database.openStore none).landholders = [] ∧
    (Database.openStore none).fts_landholders = [] ∧
    ∀ db : Database, Database.openStore (some db) = db :=
  ⟨rfl, rfl, fun _ => rfl⟩

/-- Claim C9: `count_components` calls the nowhere-defined name `hyphenate`,
so on every non-empty list of names it raises `NameError`, and so does
`generate_names`, which calls it — no generated name is ever produced. -/
theorem generate_names_name_error
    (choices : List String → Nat → List String) (names : List String) (n : Nat)
    (h : names ≠ []) :
    count_components names = .error (.NameError "hyphenate") ∧
    generate_names choices names n = .error (.NameError "hyphenate") := by
  rcases names with _ | ⟨nm, rest⟩
  · exact absurd rfl h
  · have h1 : count_components (nm :: rest) = .error (.NameError "hyphenate") := rfl
    refine ⟨h1, ?_⟩
    rw [generate_names, h1]
    rfl

theorem generate_names_name_error_witness :
    count_components ["Godric"] = .error (.NameError "hyphenate") ∧
    generate_names (fun _ _ => []) ["Godric"] 10 = .error (.NameError "hyphenate") :=
  generate_names_name_error (fun _ _ => []) ["Godric"] 10 (by simp)

/-- Claim C10: the notebook's `relative_D` column applies the division to
every row of the dataframe, and on any row whose `total_1066` is zero the
unguarded division produces a non-numeric value (an infinity or NaN), never
a finite number. -/
theorem relative_D_unguarded :
    (∀ (rows : List Record) (i : Nat),
        (relative_D_col rows).get? i = (rows.get? i).map relative_D) ∧
    (∀ rows : List Record, (relative_D_col rows).length = rows.length) ∧
    (∀ r : Record, total_1066 r = 0 → ∀ v : ℚ, relative_D r ≠ PdVal.num v) := by
  refine ⟨fun rows i => by rw [relative_D_col, List.get?_map],
    fun rows => by simp [relative_D_col], ?_⟩
  intro r h v
  rw [relative_D, pdDiv, if_pos h]
  split_ifs <;> simp

theorem relative_D_unguarded_witness :
    total_1066 zeroRec = 0 ∧ relative_D zeroRec ≠ PdVal.num 0 := by
  have h : total_1066 zeroRec = 0 := by norm_num [total_1066, zeroRec]
  exact ⟨h, relative_D_unguarded.2.2 zeroRec h 0⟩
